import Mathlib

/-!
Verification development for the abs-autoconverter companion process.

The TypeScript sources are shallowly embedded here:
* `src/conversionUtils.ts` — conversion rule table parsing (`parseConversionMatrix`)
  and first-match rule lookup (`findConversion`);
* `src/index.ts` — the bounded dispatch queue (`processEncodingQueue`),
  the `task_finished` handler and `shutdown`;
* `src/config.ts` — the excluded-codec configuration (`EXCLUDED_CODECS`).

JavaScript strings are modelled as `List Char` (`JSStr`), so that
`String.prototype.split`, `trim`, `toLowerCase`, `parseInt` and number
stringification are transparent structural functions.  `toLowerCase` is
modelled on the ASCII letters, which covers every codec and configuration
string this program manipulates.  A JavaScript `Map` is an insertion-ordered
association list whose `set` replaces in place.  Code that can throw
(`undefined.trim()` in the parser) is embedded in `Except`.
-/

namespace AbsAutoconverter

/-- JavaScript string, modelled as its list of characters. -/
abbrev JSStr := List Char

/-- Characters of a Lean string literal, used to write `JSStr` constants. -/
def jsOf (s : String) : JSStr := s.data

/-- Whitespace as trimmed/skipped by `String.prototype.trim` and `parseInt`
(the ASCII whitespace characters that occur in practice). -/
def isWSChar (c : Char) : Bool := c = ' ' || c = '\t' || c = '\n' || c = '\r'

/-- Decimal digit test. -/
def isDigitChar (c : Char) : Bool := decide ('0' ≤ c) && decide (c ≤ '9')

/-- `String.prototype.split` with a one-character separator: always returns a
nonempty list, empty fields included. -/
def jsSplitOn (sep : Char) : JSStr → List JSStr
  | [] => [[]]
  | c :: rest =>
    let r := jsSplitOn sep rest
    if c = sep then [] :: r else (c :: r.headD []) :: r.tail

/-- `String.prototype.trim`. -/
def jsTrim (s : JSStr) : JSStr :=
  ((s.dropWhile isWSChar).reverse.dropWhile isWSChar).reverse

/-- ASCII uppercase/lowercase letter table. -/
def upperLowerPairs : List (Char × Char) :=
  [('A', 'a'), ('B', 'b'), ('C', 'c'), ('D', 'd'), ('E', 'e'), ('F', 'f'),
   ('G', 'g'), ('H', 'h'), ('I', 'i'), ('J', 'j'), ('K', 'k'), ('L', 'l'),
   ('M', 'm'), ('N', 'n'), ('O', 'o'), ('P', 'p'), ('Q', 'q'), ('R', 'r'),
   ('S', 's'), ('T', 't'), ('U', 'u'), ('V', 'v'), ('W', 'w'), ('X', 'x'),
   ('Y', 'y'), ('Z', 'z')]

/-- `toLowerCase` on one character (ASCII range). -/
def jsCharToLower (c : Char) : Char :=
  ((upperLowerPairs.find? fun p => decide (p.1 = c)).map (·.2)).getD c

/-- `String.prototype.toLowerCase` (ASCII range). -/
def jsToLower (s : JSStr) : JSStr := s.map jsCharToLower

/-- `String.prototype.includes`. -/
def jsIncludes (hay needle : JSStr) : Bool :=
  hay.tails.any fun t => needle.isPrefixOf t

/-- Value of a run of decimal digits (the accumulator loop of `parseInt`). -/
def digitsVal (s : JSStr) : Nat :=
  s.foldl (fun a c => 10 * a + (c.toNat - 48)) 0

/-- The digit-reading core of `parseInt`: leading decimal digits, `none`
("NaN") when there are none. -/
def parseNatDigits (s : JSStr) : Option Nat :=
  let ds := s.takeWhile isDigitChar
  if ds = [] then none else some (digitsVal ds)

/-- Sign handling of `parseInt`, after leading whitespace has been skipped. -/
def parseIntSigned : JSStr → Option Int
  | [] => none
  | c :: r =>
    if c = '-' then (parseNatDigits r).map fun n => -(n : Int)
    else if c = '+' then (parseNatDigits r).map fun n => (n : Int)
    else (parseNatDigits (c :: r)).map fun n => (n : Int)

/-- JavaScript `parseInt(s)` in base 10: skip leading whitespace, optional
sign, then leading digits; `none` models `NaN`. -/
def parseIntJS (s : JSStr) : Option Int :=
  parseIntSigned (s.dropWhile isWSChar)

/-- Decimal rendering of a natural number, structured with explicit fuel so
that it is structurally recursive (`fuel = n + 1` always suffices). -/
def natToCharsAux : Nat → Nat → JSStr → JSStr
  | 0, _, acc => acc
  | fuel + 1, n, acc =>
    if n < 10 then Nat.digitChar n :: acc
    else natToCharsAux fuel (n / 10) (Nat.digitChar (n % 10) :: acc)

/-- Decimal string of a natural number (`Number.prototype.toString`). -/
def natToChars (n : Nat) : JSStr := natToCharsAux (n + 1) n []

/-- Decimal string of an integer-valued JavaScript number. -/
def intToJS (i : Int) : JSStr :=
  if i < 0 then '-' :: natToChars i.natAbs else natToChars i.toNat

/-! ## Conversion rule engine (`src/conversionUtils.ts`) -/

/-- Output profile of a conversion (`ConversionProfile`). -/
structure ConversionProfile where
  codec : JSStr
  bitrate : JSStr
  channels : JSStr
deriving DecidableEq, Repr

/-- A parsed conversion matrix: a JavaScript `Map` from condition strings to
profiles, i.e. an insertion-ordered association list with distinct keys. -/
abbrev ConversionMatrix := List (JSStr × ConversionProfile)

/-- `Map.prototype.set`: replace in place when the key exists (keeping its
original position), otherwise append. -/
def mapSet : ConversionMatrix → JSStr → ConversionProfile → ConversionMatrix
  | [], k, v => [(k, v)]
  | (k', v') :: rest, k, v =>
    if k' = k then (k', v) :: rest else (k', v') :: mapSet rest k v

/-- `Map.prototype.get`. -/
def mapGet (m : ConversionMatrix) (k : JSStr) : Option ConversionProfile :=
  (m.find? fun e => decide (e.1 = k)).map (·.2)

/-- The dedicated all-wildcard key under which a bare fallback item is stored. -/
def FALLBACK_KEY : JSStr := jsOf "0|0|0|0|0"

/-- Branch of `parseConversionMatrix` for an item with both a condition and a
result part (`condition && result`).  `result.split("|")` must provide a
bitrate and a channels field: when it does not, the source calls `.trim()` on
`undefined`, a TypeError, modelled as `Except.error`. -/
def parseRuleActionAux (m : ConversionMatrix) (condition : JSStr) :
    List JSStr → Except Unit ConversionMatrix
  | codec :: bitrate :: channels :: _ =>
    Except.ok (mapSet m (jsTrim condition)
      ⟨jsTrim codec, jsTrim bitrate, jsTrim channels⟩)
  | _ => Except.error ()

def parseRuleAction (m : ConversionMatrix) (condition res : JSStr) :
    Except Unit ConversionMatrix :=
  parseRuleActionAux m condition (jsSplitOn '|' res)

/-- Branch of `parseConversionMatrix` for a bare fallback item (an item with a
condition part but no `=` separator or an empty result): its parts are read as
codec/bitrate/channels and, when all three are truthy, stored under the
all-wildcard key.  Never throws (the source guards with
`if (codec && bitrate && channels)`). -/
def parseFallbackAux (m : ConversionMatrix) : List JSStr → Except Unit ConversionMatrix
  | codec :: bitrate :: channels :: _ =>
    if codec ≠ [] ∧ bitrate ≠ [] ∧ channels ≠ [] then
      Except.ok (mapSet m FALLBACK_KEY ⟨jsTrim codec, jsTrim bitrate, jsTrim channels⟩)
    else Except.ok m
  | _ => Except.ok m

def parseFallback (m : ConversionMatrix) (condition : JSStr) :
    Except Unit ConversionMatrix :=
  parseFallbackAux m (jsSplitOn '|' condition)

/-- One iteration of the `for (const rule of rules)` loop of
`parseConversionMatrix`. -/
def parseItemAux (m : ConversionMatrix) : List JSStr → Except Unit ConversionMatrix
  | condition :: res :: _ =>
    if condition ≠ [] ∧ res ≠ [] then parseRuleAction m condition res
    else if condition ≠ [] then parseFallback m condition
    else Except.ok m
  | [condition] =>
    if condition ≠ [] then parseFallback m condition else Except.ok m
  | [] => Except.ok m

def parseItem (m : ConversionMatrix) (rule : JSStr) : Except Unit ConversionMatrix :=
  parseItemAux m (jsSplitOn '=' rule)

/-- The exact shape of item on which `parseConversionMatrix` throws: a truthy
condition part, a truthy result part, and fewer than three `|`-fields in the
result (so `bitrate` or `channels` is `undefined` and `.trim()` throws). -/
def itemThrowsAux : List JSStr → Bool
  | condition :: res :: _ =>
    decide (condition ≠ []) && decide (res ≠ []) &&
      decide ((jsSplitOn '|' res).length < 3)
  | _ => false

def itemThrows (rule : JSStr) : Bool := itemThrowsAux (jsSplitOn '=' rule)

/-- The loop of `parseConversionMatrix`; a thrown TypeError aborts the whole
parse. -/
def parseRules : ConversionMatrix → List JSStr → Except Unit ConversionMatrix
  | m, [] => Except.ok m
  | m, r :: rs =>
    match parseItem m r with
    | Except.ok m' => parseRules m' rs
    | Except.error e => Except.error e

/-- `parseConversionMatrix` from `src/conversionUtils.ts`. -/
def parseConversionMatrix (matrixStr : JSStr) : Except Unit ConversionMatrix :=
  if matrixStr = [] then Except.ok []
  else parseRules [] (jsSplitOn ',' matrixStr)

/-- First clause of a bound check in `findConversion`:
`field === "0" || input >= parseInt(field)`.  A missing field (`undefined`)
fails the wildcard test and makes `parseInt` return `NaN`, whose comparisons
are false. -/
def wildGe : Option JSStr → Int → Bool
  | none, _ => false
  | some s, v =>
    if s = jsOf "0" then true
    else match parseIntJS s with
      | none => false
      | some n => decide (n ≤ v)

/-- Second clause of a bound check in `findConversion`:
`field === "0" || input <= parseInt(field)`. -/
def wildLe : Option JSStr → Int → Bool
  | none, _ => false
  | some s, v =>
    if s = jsOf "0" then true
    else match parseIntJS s with
      | none => false
      | some n => decide (v ≤ n)

/-- The condition test inside the loop of `findConversion`: the condition key
is split on `|` into codec and two inclusive ranges; `"0"` is the wildcard. -/
def condHolds (condition inputCodec : JSStr) (inputBitrate inputChannels : Int) : Bool :=
  let parts := jsSplitOn '|' condition
  let condCodec := parts.headD []
  (decide (jsToLower condCodec = jsToLower inputCodec) || decide (condCodec = jsOf "0"))
    && wildGe parts[1]? inputBitrate
    && wildLe parts[2]? inputBitrate
    && wildGe parts[3]? inputChannels
    && wildLe parts[4]? inputChannels

/-- Resolution of the `copy` sentinel, performed identically at every return
site of `findConversion`: a profile whose codec is (case-insensitively)
`copy` resolves to the input's own codec, bitrate and channel count,
stringified. -/
def resolveCopy (p : ConversionProfile) (inputCodec : JSStr)
    (inputBitrate inputChannels : Int) : ConversionProfile :=
  if jsToLower p.codec = jsOf "copy" then
    ⟨inputCodec, intToJS inputBitrate, intToJS inputChannels⟩
  else p

/-- The `for (const [condition, resultProfile] of matrix.entries())` loop of
`findConversion`. -/
def findLoop : ConversionMatrix → JSStr → Int → Int → Option ConversionProfile
  | [], _, _, _ => none
  | (condition, resultProfile) :: rest, c, br, ch =>
    if condHolds condition c br ch then some (resolveCopy resultProfile c br ch)
    else findLoop rest c br ch

/-- `findConversion` from `src/conversionUtils.ts`: scan the matrix entries in
insertion order, then consult the all-wildcard fallback entry. -/
def findConversion (matrix : ConversionMatrix) (inputCodec : JSStr)
    (inputBitrate inputChannels : Int) : Option ConversionProfile :=
  match findLoop matrix inputCodec inputBitrate inputChannels with
  | some p => some p
  | none =>
    match mapGet matrix FALLBACK_KEY with
    | some fallbackProfile =>
      some (resolveCopy fallbackProfile inputCodec inputBitrate inputChannels)
    | none => none

/-- A five-field condition string with the given codec field and natural
number bounds, as written in a well-formed rule table. -/
def mkCond (sc : JSStr) (bitrateLow bitrateHigh channelsLow channelsHigh : Nat) : JSStr :=
  sc ++ '|' :: (natToChars bitrateLow ++ '|' :: (natToChars bitrateHigh
    ++ '|' :: (natToChars channelsLow ++ '|' :: natToChars channelsHigh)))

/-! ## Lemmas about the string model -/

lemma jsSplitOn_ne_nil (sep : Char) (s : JSStr) : jsSplitOn sep s ≠ [] := by
  cases s with
  | nil => simp [jsSplitOn]
  | cons c rest => simp only [jsSplitOn]; split <;> simp

lemma jsSplitOn_of_not_mem (sep : Char) (s : JSStr) (h : sep ∉ s) :
    jsSplitOn sep s = [s] := by
  induction s with
  | nil => rfl
  | cons c rest ih =>
    have hc : c ≠ sep := by rintro rfl; exact h (List.mem_cons_self _ _)
    have hr : sep ∉ rest := fun hm => h (List.mem_cons_of_mem _ hm)
    simp only [jsSplitOn, ih hr]
    rw [if_neg (by exact fun hcs => hc hcs)]
    simp

lemma jsSplitOn_append (sep : Char) (a b : JSStr) (h : sep ∉ a) :
    jsSplitOn sep (a ++ sep :: b) = a :: jsSplitOn sep b := by
  induction a with
  | nil => simp [jsSplitOn]
  | cons c a' ih =>
    have hc : c ≠ sep := by rintro rfl; exact h (List.mem_cons_self _ _)
    have ha : sep ∉ a' := fun hm => h (List.mem_cons_of_mem _ hm)
    simp only [List.cons_append, jsSplitOn, List.append_eq]
    rw [if_neg hc, ih ha]
    simp

lemma upperLowerPairs_comma_fst : ∀ p ∈ upperLowerPairs, p.1 ≠ ',' := by decide

lemma upperLowerPairs_comma_snd : ∀ p ∈ upperLowerPairs, p.2 ≠ ',' := by decide

lemma jsCharToLower_eq_comma (c : Char) : jsCharToLower c = ',' ↔ c = ',' := by
  unfold jsCharToLower
  cases hf : upperLowerPairs.find? fun p => decide (p.1 = c) with
  | none => simp
  | some p =>
    have hmem := List.mem_of_find?_eq_some hf
    have hpc : p.1 = c := by
      have := List.find?_some hf
      simpa using this
    simp only [Option.map_some', Option.getD_some]
    constructor
    · intro h2; exact absurd h2 (upperLowerPairs_comma_snd p hmem)
    · rintro rfl; exact absurd hpc (upperLowerPairs_comma_fst p hmem)

lemma jsSplitOn_comma_toLower (s : JSStr) :
    jsSplitOn ',' (jsToLower s) = (jsSplitOn ',' s).map jsToLower := by
  induction s with
  | nil => rfl
  | cons c rest ih =>
    have hne := jsSplitOn_ne_nil ',' rest
    simp only [jsToLower, List.map_cons, jsSplitOn] at *
    by_cases hc : c = ','
    · subst hc
      rw [if_pos (by rw [jsCharToLower_eq_comma]), if_pos rfl, ih]
      simp [jsToLower]
    · rw [if_neg (fun h => hc ((jsCharToLower_eq_comma c).mp h)), if_neg hc, ih]
      cases h0 : jsSplitOn ',' rest with
      | nil => exact absurd h0 hne
      | cons hd tl => simp [jsToLower]

/-! ## Lemmas about decimal rendering and `parseInt` -/

/-- The accumulator step of `parseInt`'s digit loop. -/
def digitStep (a : Nat) (c : Char) : Nat := 10 * a + (c.toNat - 48)

lemma digitsVal_eq_foldl (s : JSStr) : digitsVal s = s.foldl digitStep 0 := rfl

lemma digitChar_isDigit {d : Nat} (h : d < 10) :
    isDigitChar (Nat.digitChar d) = true := by
  interval_cases d <;> decide

lemma digitChar_toNat {d : Nat} (h : d < 10) : (Nat.digitChar d).toNat - 48 = d := by
  interval_cases d <;> decide

lemma natToCharsAux_ne_nil :
    ∀ (fuel n : Nat) (acc : JSStr), natToCharsAux (fuel + 1) n acc ≠ [] := by
  intro fuel
  induction fuel with
  | zero =>
    intro n acc
    simp only [natToCharsAux]
    split <;> simp [natToCharsAux]
  | succ f ih =>
    intro n acc
    simp only [natToCharsAux]
    split
    · simp
    · exact ih _ _

lemma natToCharsAux_all_digits :
    ∀ (fuel n : Nat) (acc : JSStr), acc.all isDigitChar = true →
      (natToCharsAux fuel n acc).all isDigitChar = true := by
  intro fuel
  induction fuel with
  | zero => intro n acc h; simpa [natToCharsAux] using h
  | succ f ih =>
    intro n acc h
    simp only [natToCharsAux]
    split
    · next hn => simp [List.all_cons, digitChar_isDigit hn, h]
    · exact ih _ _ (by simp [List.all_cons, digitChar_isDigit (Nat.mod_lt n (by omega)), h])

lemma natToCharsAux_foldl :
    ∀ (fuel n : Nat), n < 10 ^ fuel → ∀ (acc : JSStr) (a : Nat),
      ∃ k, (natToCharsAux fuel n acc).foldl digitStep a
            = acc.foldl digitStep (a * 10 ^ k + n) := by
  intro fuel
  induction fuel with
  | zero =>
    intro n hn acc a
    refine ⟨0, ?_⟩
    have : n = 0 := by simpa using hn
    simp [natToCharsAux, this]
  | succ f ih =>
    intro n hn acc a
    simp only [natToCharsAux]
    split
    · next h10 =>
      refine ⟨1, ?_⟩
      simp [List.foldl_cons, digitStep, digitChar_toNat h10, pow_one]
      ring_nf
    · next h10 =>
      push_neg at h10
      have hdiv : n / 10 < 10 ^ f := by
        rw [Nat.div_lt_iff_lt_mul (by norm_num)]
        calc n < 10 ^ (f + 1) := hn
          _ = 10 ^ f * 10 := by ring
      obtain ⟨k, hk⟩ := ih (n / 10) hdiv (Nat.digitChar (n % 10) :: acc) a
      refine ⟨k + 1, ?_⟩
      rw [hk]
      simp only [List.foldl_cons, digitStep, digitChar_toNat (Nat.mod_lt n (by omega))]
      have : 10 * (a * 10 ^ k + n / 10) + n % 10 = a * 10 ^ (k + 1) + n := by
        have := Nat.div_add_mod n 10
        ring_nf
        omega
      rw [this]

lemma natToChars_all_digits (n : Nat) : (natToChars n).all isDigitChar = true :=
  natToCharsAux_all_digits _ _ _ rfl

lemma natToChars_ne_nil (n : Nat) : natToChars n ≠ [] := natToCharsAux_ne_nil n n []

lemma digitsVal_natToChars (n : Nat) : digitsVal (natToChars n) = n := by
  obtain ⟨k, hk⟩ := natToCharsAux_foldl (n + 1) n (Nat.lt_pow_self (by norm_num) n |>.trans
    (Nat.pow_lt_pow_succ (by norm_num))) [] 0
  simp only [digitsVal_eq_foldl, natToChars, hk, List.foldl_nil]
  omega

lemma isDigitChar_not_ws {c : Char} (h : isDigitChar c = true) : isWSChar c = false := by
  cases hws : isWSChar c with
  | false => rfl
  | true =>
    exfalso
    simp only [isWSChar, Bool.or_eq_true, decide_eq_true_eq] at hws
    rcases hws with ((rfl | rfl) | rfl) | rfl <;> exact absurd h (by decide)

lemma isDigitChar_ne_signs {c : Char} (h : isDigitChar c = true) : c ≠ '-' ∧ c ≠ '+' := by
  constructor <;> rintro rfl <;> exact absurd h (by decide)

lemma takeWhile_of_all {p : Char → Bool} :
    ∀ {s : JSStr}, s.all p = true → s.takeWhile p = s := by
  intro s
  induction s with
  | nil => intro _; rfl
  | cons c rest ih =>
    intro h
    simp only [List.all_cons, Bool.and_eq_true] at h
    rw [List.takeWhile_cons_of_pos h.1, ih h.2]

lemma parseNatDigits_natToChars (n : Nat) : parseNatDigits (natToChars n) = some n := by
  unfold parseNatDigits
  rw [takeWhile_of_all (natToChars_all_digits n)]
  rw [if_neg (natToChars_ne_nil n), digitsVal_natToChars]

lemma parseIntJS_natToChars (n : Nat) : parseIntJS (natToChars n) = some (n : Int) := by
  have hne := natToChars_ne_nil n
  have hall := natToChars_all_digits n
  cases hs : natToChars n with
  | nil => exact absurd hs hne
  | cons c r =>
    rw [hs] at hall
    simp only [List.all_cons, Bool.and_eq_true] at hall
    have hc := hall.1
    unfold parseIntJS
    rw [List.dropWhile_cons, if_neg (by simp [isDigitChar_not_ws hc])]
    simp only [parseIntSigned]
    rw [if_neg (isDigitChar_ne_signs hc).1, if_neg (isDigitChar_ne_signs hc).2]
    rw [← hs, parseNatDigits_natToChars]
    rfl

lemma natToChars_eq_zero_iff (n : Nat) : natToChars n = jsOf "0" ↔ n = 0 := by
  constructor
  · intro h
    have hv := digitsVal_natToChars n
    rw [h] at hv
    simpa [digitsVal, digitStep, jsOf] using hv.symm
  · rintro rfl; rfl

lemma bar_not_mem_natToChars (n : Nat) : '|' ∉ natToChars n := by
  intro hm
  have hall := natToChars_all_digits n
  rw [List.all_eq_true] at hall
  exact absurd (hall _ hm) (by decide)

lemma wildGe_natToChars (n : Nat) (v : Int) :
    wildGe (some (natToChars n)) v = (decide (n = 0) || decide ((n : Int) ≤ v)) := by
  by_cases h0 : n = 0
  · subst h0
    simp only [wildGe]
    rw [if_pos ((natToChars_eq_zero_iff 0).mpr rfl)]
    simp
  · simp only [wildGe]
    rw [if_neg (fun h => h0 ((natToChars_eq_zero_iff n).mp h)), parseIntJS_natToChars]
    simp [h0]

lemma wildLe_natToChars (n : Nat) (v : Int) :
    wildLe (some (natToChars n)) v = (decide (n = 0) || decide (v ≤ (n : Int))) := by
  by_cases h0 : n = 0
  · subst h0
    simp only [wildLe]
    rw [if_pos ((natToChars_eq_zero_iff 0).mpr rfl)]
    simp
  · simp only [wildLe]
    rw [if_neg (fun h => h0 ((natToChars_eq_zero_iff n).mp h)), parseIntJS_natToChars]
    simp [h0]

lemma jsSplitOn_mkCond (sc : JSStr) (bL bH cL cH : Nat) (hsc : '|' ∉ sc) :
    jsSplitOn '|' (mkCond sc bL bH cL cH) =
      [sc, natToChars bL, natToChars bH, natToChars cL, natToChars cH] := by
  unfold mkCond
  rw [jsSplitOn_append _ _ _ hsc, jsSplitOn_append _ _ _ (bar_not_mem_natToChars bL),
    jsSplitOn_append _ _ _ (bar_not_mem_natToChars bH),
    jsSplitOn_append _ _ _ (bar_not_mem_natToChars cL),
    jsSplitOn_of_not_mem _ _ (bar_not_mem_natToChars cH)]

set_option maxHeartbeats 1000000 in
lemma condHolds_mkCond (sc : JSStr) (bL bH cL cH : Nat) (c : JSStr) (br ch : Int)
    (hsc : '|' ∉ sc) :
    (condHolds (mkCond sc bL bH cL cH) c br ch = true) ↔
      ((jsToLower sc = jsToLower c ∨ sc = jsOf "0") ∧
       (bL = 0 ∨ (bL : Int) ≤ br) ∧ (bH = 0 ∨ br ≤ (bH : Int)) ∧
       (cL = 0 ∨ (cL : Int) ≤ ch) ∧ (cH = 0 ∨ ch ≤ (cH : Int))) := by
  unfold condHolds
  rw [jsSplitOn_mkCond sc bL bH cL cH hsc]
  have e0 : ([sc, natToChars bL, natToChars bH, natToChars cL, natToChars cH] :
      List JSStr).headD [] = sc := rfl
  have e1 : ([sc, natToChars bL, natToChars bH, natToChars cL, natToChars cH] :
      List JSStr)[1]? = some (natToChars bL) := rfl
  have e2 : ([sc, natToChars bL, natToChars bH, natToChars cL, natToChars cH] :
      List JSStr)[2]? = some (natToChars bH) := rfl
  have e3 : ([sc, natToChars bL, natToChars bH, natToChars cL, natToChars cH] :
      List JSStr)[3]? = some (natToChars cL) := rfl
  have e4 : ([sc, natToChars bL, natToChars bH, natToChars cL, natToChars cH] :
      List JSStr)[4]? = some (natToChars cH) := rfl
  simp only [e0, e1, e2, e3, e4, wildGe_natToChars, wildLe_natToChars,
    Bool.and_eq_true, Bool.or_eq_true, decide_eq_true_eq]
  tauto

/-! ## Lemmas about `findConversion` -/

lemma findLoop_eq_find? (m : ConversionMatrix) (c : JSStr) (br ch : Int) :
    findLoop m c br ch =
      (m.find? fun e => condHolds e.1 c br ch).map fun e => resolveCopy e.2 c br ch := by
  induction m with
  | nil => rfl
  | cons e rest ih =>
    obtain ⟨cond, prof⟩ := e
    by_cases hc : condHolds cond c br ch
    · simp only [findLoop]
      rw [if_pos hc]
      simp [List.find?, hc]
    · simp only [findLoop]
      rw [if_neg hc, ih]
      simp [List.find?, hc]

lemma findLoop_append (m₁ m₂ : ConversionMatrix) (c : JSStr) (br ch : Int) :
    findLoop (m₁ ++ m₂) c br ch =
      match findLoop m₁ c br ch with
      | some p => some p
      | none => findLoop m₂ c br ch := by
  induction m₁ with
  | nil => rfl
  | cons e rest ih =>
    obtain ⟨cond, prof⟩ := e
    by_cases hc : condHolds cond c br ch
    · rw [List.cons_append, findLoop, if_pos hc, findLoop, if_pos hc]
    · rw [List.cons_append, findLoop, if_neg hc, findLoop, if_neg hc, ih]

lemma findConversion_of_find?_some {m : ConversionMatrix} {c : JSStr} {br ch : Int}
    {e : JSStr × ConversionProfile}
    (h : (m.find? fun r => condHolds r.1 c br ch) = some e) :
    findConversion m c br ch = some (resolveCopy e.2 c br ch) := by
  unfold findConversion
  rw [findLoop_eq_find? m c br ch, h, Option.map_some']

/-! ## Lemmas about the parser -/

lemma parseFallback_ok (m : ConversionMatrix) (condition : JSStr) :
    ∃ m', parseFallback m condition = Except.ok m' := by
  unfold parseFallback
  rcases jsSplitOn '|' condition with _ | ⟨a, _ | ⟨b, _ | ⟨c2, t⟩⟩⟩
  · exact ⟨m, rfl⟩
  · exact ⟨m, rfl⟩
  · exact ⟨m, rfl⟩
  · by_cases h : a ≠ [] ∧ b ≠ [] ∧ c2 ≠ []
    · exact ⟨_, by simp only [parseFallbackAux]; rw [if_pos h]⟩
    · exact ⟨m, by simp only [parseFallbackAux]; rw [if_neg h]⟩

lemma parseRuleAction_cases (m : ConversionMatrix) (condition res : JSStr) :
    ((jsSplitOn '|' res).length < 3 ∧ parseRuleAction m condition res = Except.error ()) ∨
    (¬(jsSplitOn '|' res).length < 3 ∧
      ∃ m', parseRuleAction m condition res = Except.ok m') := by
  unfold parseRuleAction
  rcases jsSplitOn '|' res with _ | ⟨a, _ | ⟨b, _ | ⟨c2, t⟩⟩⟩
  · exact Or.inl ⟨by simp, rfl⟩
  · exact Or.inl ⟨by simp, rfl⟩
  · exact Or.inl ⟨by simp, rfl⟩
  · exact Or.inr ⟨by simp only [List.length_cons]; omega, ⟨_, rfl⟩⟩

lemma parseItem_behavior (m : ConversionMatrix) (r : JSStr) :
    (itemThrows r = true ∧ parseItem m r = Except.error ()) ∨
    (itemThrows r = false ∧ ∃ m', parseItem m r = Except.ok m') := by
  unfold parseItem itemThrows
  rcases jsSplitOn '=' r with _ | ⟨condition, _ | ⟨res, t⟩⟩
  · exact Or.inr ⟨rfl, ⟨m, rfl⟩⟩
  · refine Or.inr ⟨rfl, ?_⟩
    simp only [parseItemAux]
    by_cases h : condition ≠ []
    · rw [if_pos h]; exact parseFallback_ok _ _
    · rw [if_neg h]; exact ⟨m, rfl⟩
  · simp only [parseItemAux, itemThrowsAux]
    by_cases hcr : condition ≠ [] ∧ res ≠ []
    · rw [if_pos hcr]
      rcases parseRuleAction_cases m condition res with ⟨hlen, herr⟩ | ⟨hlen, hok⟩
      · exact Or.inl ⟨by simp [hcr.1, hcr.2, hlen], herr⟩
      · exact Or.inr ⟨by simp [hlen], hok⟩
    · rw [if_neg hcr]
      right
      constructor
      · have h : ¬(condition ≠ []) ∨ ¬(res ≠ []) := by tauto
        rcases h with h | h <;> simp [h]
      · by_cases h2 : condition ≠ []
        · rw [if_pos h2]; exact parseFallback_ok _ _
        · rw [if_neg h2]; exact ⟨m, rfl⟩

lemma parseRules_isSome (rs : List JSStr) :
    ∀ m : ConversionMatrix,
      (parseRules m rs).toOption.isSome = rs.all fun r => !itemThrows r := by
  induction rs with
  | nil => intro m; rfl
  | cons r rs ih =>
    intro m
    rcases parseItem_behavior m r with ⟨ht, herr⟩ | ⟨ht, ⟨m', hok⟩⟩
    · simp [parseRules, herr, ht, Except.toOption]
    · simp [parseRules, hok, ht, ih]

/-! ## Claim theorems for the rule engine -/

/-- C1.  `findConversion` returns the (copy-resolved) action of the first rule
in declaration order whose condition holds; a condition of the standard
five-field shape holds iff the codec field equals the input codec
case-insensitively or is the wildcard `"0"`, the bitrate lies within the
inclusive bounds (a `0` bound being unbounded on its side), and likewise for
the channel count; in particular a rule with bitrate bounds `[L, H]` matches
exactly at `L` and at `H`. -/
theorem c1_first_match_and_inclusive_bounds :
    (∀ (m : ConversionMatrix) (c : JSStr) (br ch : Int) (e : JSStr × ConversionProfile),
      (m.find? fun r => condHolds r.1 c br ch) = some e →
      findConversion m c br ch = some (resolveCopy e.2 c br ch))
    ∧ (∀ (sc : JSStr) (bL bH cL cH : Nat) (c : JSStr) (br ch : Int), '|' ∉ sc →
      (condHolds (mkCond sc bL bH cL cH) c br ch = true ↔
        ((jsToLower sc = jsToLower c ∨ sc = jsOf "0") ∧
         (bL = 0 ∨ (bL : Int) ≤ br) ∧ (bH = 0 ∨ br ≤ (bH : Int)) ∧
         (cL = 0 ∨ (cL : Int) ≤ ch) ∧ (cH = 0 ∨ ch ≤ (cH : Int)))))
    ∧ (∀ (sc : JSStr) (bL bH : Nat) (c : JSStr) (ch : Int), '|' ∉ sc →
      (jsToLower sc = jsToLower c ∨ sc = jsOf "0") → 1 ≤ bL → bL ≤ bH →
        condHolds (mkCond sc bL bH 0 0) c (bL : Int) ch = true ∧
        condHolds (mkCond sc bL bH 0 0) c (bH : Int) ch = true ∧
        (∀ br : Int, br < (bL : Int) →
          condHolds (mkCond sc bL bH 0 0) c br ch = false) ∧
        (∀ br : Int, (bH : Int) < br →
          condHolds (mkCond sc bL bH 0 0) c br ch = false)) := by
  refine ⟨fun m c br ch e h => findConversion_of_find?_some h,
    fun sc bL bH cL cH c br ch hsc => condHolds_mkCond sc bL bH cL cH c br ch hsc,
    fun sc bL bH c ch hsc hcodec hL hLH => ⟨?_, ?_, ?_, ?_⟩⟩
  · exact (condHolds_mkCond sc bL bH 0 0 c _ ch hsc).mpr
      ⟨hcodec, Or.inr le_rfl, Or.inr (by exact_mod_cast hLH), Or.inl rfl, Or.inl rfl⟩
  · exact (condHolds_mkCond sc bL bH 0 0 c _ ch hsc).mpr
      ⟨hcodec, Or.inr (by exact_mod_cast hLH), Or.inr le_rfl, Or.inl rfl, Or.inl rfl⟩
  · intro br hbr
    cases hend : condHolds (mkCond sc bL bH 0 0) c br ch with
    | false => rfl
    | true =>
      exfalso
      obtain ⟨_, h2, _, _, _⟩ := (condHolds_mkCond sc bL bH 0 0 c br ch hsc).mp hend
      rcases h2 with h2 | h2 <;> omega
  · intro br hbr
    cases hend : condHolds (mkCond sc bL bH 0 0) c br ch with
    | false => rfl
    | true =>
      exfalso
      obtain ⟨_, _, h3, _, _⟩ := (condHolds_mkCond sc bL bH 0 0 c br ch hsc).mp hend
      rcases h3 with h3 | h3 <;> omega

/-- Witness for C1: the spec's own scenario (first rule wins, wildcards,
case-insensitive codec, inclusive upper bound, strict outside the bounds). -/
theorem c1_witness :
    findConversion [(jsOf "0|1|48000|1|1", ⟨jsOf "opus", jsOf "24000", jsOf "1"⟩),
        (jsOf "0|0|0|0|0", ⟨jsOf "opus", jsOf "64000", jsOf "2"⟩)] (jsOf "mp3") 32000 1
      = some ⟨jsOf "opus", jsOf "24000", jsOf "1"⟩ ∧
    condHolds (mkCond (jsOf "mp3") 1 48000 1 2) (jsOf "MP3") 48000 2 = true ∧
    condHolds (mkCond (jsOf "0") 100 200 0 0) (jsOf "aac") 99 1 = false :=
  ⟨(c1_first_match_and_inclusive_bounds.1 _ _ _ _
      (jsOf "0|1|48000|1|1", ⟨jsOf "opus", jsOf "24000", jsOf "1"⟩)
      (by decide)).trans (by decide),
   (c1_first_match_and_inclusive_bounds.2.1 (jsOf "mp3") 1 48000 1 2 (jsOf "MP3")
      48000 2 (by decide)).mpr (by decide),
   (c1_first_match_and_inclusive_bounds.2.2 (jsOf "0") 100 200 (jsOf "aac") 1
      (by decide) (by decide) (by decide) (by decide)).2.2.1 99 (by decide)⟩

/-- C2 counterexample.  In the text
`"opus|64000|2,mp3|0|0|0|0=aac|128000|2"` the bare fallback appears first, so
it is stored first under the all-wildcard key; the matcher's scan then reaches
the all-wildcard entry before the explicit `mp3` rule, and the input
`(mp3, 500000, 2)` — matched by the explicit rule — nevertheless receives the
fallback action `opus|64000|2`, contradicting the claim that the fallback is
reachable only after every explicit rule has failed. -/
theorem c2_counterexample :
    (parseConversionMatrix (jsOf "opus|64000|2,mp3|0|0|0|0=aac|128000|2")).toOption.map
        (fun m => findConversion m (jsOf "mp3") 500000 2)
      = some (some ⟨jsOf "opus", jsOf "64000", jsOf "2"⟩) ∧
    condHolds (jsOf "mp3|0|0|0|0") (jsOf "mp3") 500000 2 = true ∧
    (⟨jsOf "opus", jsOf "64000", jsOf "2"⟩ : ConversionProfile)
      ≠ ⟨jsOf "aac", jsOf "128000", jsOf "2"⟩ :=
  ⟨by decide, by decide, by decide⟩

/-- C2 (amended).  The fallback entry occupies its insertion position in the
table and its all-wildcard condition matches every input, so it shadows any
rule after it; only when the fallback entry is the *last* entry of the parsed
table is it consulted after all explicit rules: then an input matched by some
explicit rule receives the first such rule's (copy-resolved) action, never the
fallback's. -/
theorem c2_fallback_last :
    ∀ (rules : ConversionMatrix) (fb : ConversionProfile) (c : JSStr) (br ch : Int)
      (e : JSStr × ConversionProfile),
      (rules.find? fun r => condHolds r.1 c br ch) = some e →
      findConversion (rules ++ [(FALLBACK_KEY, fb)]) c br ch
        = some (resolveCopy e.2 c br ch) := by
  intro rules fb c br ch e h
  unfold findConversion
  rw [findLoop_append, findLoop_eq_find?, h, Option.map_some']

/-- Witness for C2 (amended): with the fallback last, the explicit `mp3` rule
wins for the same input as in the counterexample. -/
theorem c2_witness :
    findConversion ([(jsOf "mp3|0|0|0|0", ⟨jsOf "aac", jsOf "128000", jsOf "2"⟩)] ++
        [(FALLBACK_KEY, ⟨jsOf "opus", jsOf "64000", jsOf "2"⟩)]) (jsOf "mp3") 500000 2
      = some ⟨jsOf "aac", jsOf "128000", jsOf "2"⟩ :=
  (c2_fallback_last [(jsOf "mp3|0|0|0|0", ⟨jsOf "aac", jsOf "128000", jsOf "2"⟩)]
    ⟨jsOf "opus", jsOf "64000", jsOf "2"⟩ (jsOf "mp3") 500000 2
    (jsOf "mp3|0|0|0|0", ⟨jsOf "aac", jsOf "128000", jsOf "2"⟩)
    (by decide)).trans (by decide)

/-- C3 counterexample.  The item `"x=opus"` has a truthy condition and result,
but `result.split("|")` yields only one field, so the source calls `.trim()`
on `undefined` bitrate — a TypeError; the parser fails instead of silently
skipping the malformed item. -/
theorem c3_counterexample :
    parseConversionMatrix (jsOf "x=opus") = Except.error () ∧
    (parseConversionMatrix (jsOf "x=opus")).toOption.isSome = false :=
  ⟨rfl, rfl⟩

/-- C3 (amended).  `parseConversionMatrix` silently skips malformed items that
lack the condition/action separator (or have an empty condition or action) and
preserves the remaining items in declaration order, but it is not total: it
succeeds exactly when no item has a truthy condition part, a truthy action
part and fewer than three action fields; on any such item (e.g. `"x=opus"`)
the `.trim()` call on an `undefined` field throws and the parse fails. -/
theorem c3_parse_totality_boundary :
    ∀ matrixStr : JSStr,
      (parseConversionMatrix matrixStr).toOption.isSome
        = (decide (matrixStr = []) ||
            (jsSplitOn ',' matrixStr).all fun r => !itemThrows r) := by
  intro s
  by_cases h : s = []
  · subst h; rfl
  · unfold parseConversionMatrix
    rw [if_neg h, parseRules_isSome]
    simp [h]

/-- C6.  Whenever the first matching rule's action codec is the copy sentinel
(case-insensitively), `findConversion` resolves the result to exactly the
input's own codec with the decimal strings of the input bitrate and channel
count, ignoring the values stored in the table. -/
theorem c6_copy_identity :
    ∀ (m : ConversionMatrix) (c : JSStr) (br ch : Int) (e : JSStr × ConversionProfile),
      (m.find? fun r => condHolds r.1 c br ch) = some e →
      jsToLower e.2.codec = jsOf "copy" →
      findConversion m c br ch = some ⟨c, intToJS br, intToJS ch⟩ := by
  intro m c br ch e hf hcopy
  rw [findConversion_of_find?_some hf]
  unfold resolveCopy
  rw [if_pos hcopy]

/-- Witness for C6: the default matrix `"copy|0|0"` stores `Copy` under the
all-wildcard key, and the result is the stringified input, not the stored
strings. -/
theorem c6_witness :
    findConversion [(jsOf "0|0|0|0|0", ⟨jsOf "Copy", jsOf "0", jsOf "0"⟩)]
        (jsOf "mp3") 12345 2 = some ⟨jsOf "mp3", jsOf "12345", jsOf "2"⟩ :=
  (c6_copy_identity [(jsOf "0|0|0|0|0", ⟨jsOf "Copy", jsOf "0", jsOf "0"⟩)]
    (jsOf "mp3") 12345 2 (jsOf "0|0|0|0|0", ⟨jsOf "Copy", jsOf "0", jsOf "0"⟩)
    (by decide) (by decide)).trans (by decide)

/-! ## Configuration (`src/config.ts`) -/

/-- `EXCLUDED_CODECS` from `src/config.ts`: the raw environment string is
lowercased as a whole and then split on commas. -/
def EXCLUDED_CODECS (raw : JSStr) : List JSStr := jsSplitOn ',' (jsToLower raw)

/-- The dispatch-time exclusion test of `processEncodingQueue`
(`EXCLUDED_CODECS.includes(codec.toLowerCase())`), applied to a configured
raw excluded-codec string and an item codec. -/
def dispatchSkips (raw codec : JSStr) : Bool :=
  (EXCLUDED_CODECS raw).contains (jsToLower codec)

/-! ## Bounded dispatch queue (`src/index.ts`, `SocketClient`) -/

/-- Static configuration consumed by the dispatch loop. -/
structure DispatchConfig where
  maxParallel : Nat
  excludedCodecs : List JSStr
  matrix : ConversionMatrix
  dryRun : Bool
  embedMetadata : Bool

/-- Result of the `startM4bEncoding` request and, on its success, of the
best-effort `getTasks` resync: `encodeOk none` models a failed resync (the
inner catch swallows it, keeping the local counter), `encodeOk (some n)`
models a resync reporting `n` server-side tasks. -/
inductive EncodeOutcome where
  | encodeFail
  | encodeOk (resync : Option Nat)
deriving DecidableEq

/-- Environment outcome for one dispatched item: `getItemDetails` throwing,
an item without audio files, or an audio file with codec, bitrate and channel
count (together with the outcome of a subsequent encode request, if one is
made). -/
inductive ItemOutcome where
  | detailsFail
  | noAudioFiles
  | audio (codec : JSStr) (bitRate : Int) (channels : Int) (enc : EncodeOutcome)
deriving DecidableEq

/-- Observable external calls made by a dispatch attempt, used to state which
capabilities are (not) invoked. -/
inductive DispatchEvent where
  | ruleLookup (itemId : JSStr)
  | encodeRequest (itemId : JSStr)
  | shutdownCall
deriving DecidableEq

/-- State and trace produced by a chain of dispatch attempts. -/
structure DispatchResult where
  queue : List JSStr
  running : Int
  events : List DispatchEvent
deriving DecidableEq

/-- Prepend trace events to a result. -/
def withEvents (evs : List DispatchEvent) (r : DispatchResult) : DispatchResult :=
  ⟨r.queue, r.running, evs ++ r.events⟩

/-- Continuation of a dispatch attempt after `startM4bEncoding` was requested:
on failure the catch decrements and retries (`skipNext`); on success the
attempt ends, the counter staying at its incremented value when the resync
throws (inner catch), or being overwritten with the server-reported task
count. -/
def afterEncode (rest : List JSStr) (running : Int) :
    EncodeOutcome → DispatchResult → DispatchResult
  | EncodeOutcome.encodeFail, skipNext => skipNext
  | EncodeOutcome.encodeOk none, _ => ⟨rest, running, []⟩
  | EncodeOutcome.encodeOk (some n), _ => ⟨rest, (n : Int), []⟩

/-- Continuation after the rule-engine lookup: no profile means skip
(decrement, retry); a profile means the encode request is issued. -/
def afterLookup (itemId : JSStr) (rest : List JSStr) (running : Int)
    (enc : EncodeOutcome) (skipNext : DispatchResult) :
    Option ConversionProfile → DispatchResult
  | none => withEvents [DispatchEvent.ruleLookup itemId] skipNext
  | some _ =>
    withEvents [DispatchEvent.ruleLookup itemId, DispatchEvent.encodeRequest itemId]
      (afterEncode rest running enc skipNext)

/-- Body of a dispatch attempt once the item's audio file is known: the
exclusion check comes first (before any rule-engine call), then the rule
lookup. -/
def attemptAudio (cfg : DispatchConfig) (itemId : JSStr) (rest : List JSStr)
    (running : Int) (c : JSStr) (br ch : Int) (enc : EncodeOutcome)
    (skipNext : DispatchResult) : DispatchResult :=
  if cfg.excludedCodecs.contains (jsToLower c) then skipNext
  else afterLookup itemId rest running enc skipNext (findConversion cfg.matrix c br ch)

/-- Dispatch of one environment outcome: failed `getItemDetails` and missing
audio files are skips (decrement, retry = `skipNext`). -/
def attemptOutcome (cfg : DispatchConfig) (itemId : JSStr) (rest : List JSStr)
    (running : Int) (skipNext : DispatchResult) : ItemOutcome → DispatchResult
  | ItemOutcome.detailsFail => skipNext
  | ItemOutcome.noAudioFiles => skipNext
  | ItemOutcome.audio c br ch enc =>
    attemptAudio cfg itemId rest running c br ch enc skipNext

/-- `SocketClient.processEncodingQueue`, driven by a list of environment
outcomes consumed one per popped item.  Each skip or failure decrements the
just-incremented counter and recurses on the rest of the queue, exactly as the
source's `this.runningEncodings--; void this.processEncodingQueue();`; a
successful encode ends the attempt chain. -/
def processEncodingQueue (cfg : DispatchConfig) :
    List ItemOutcome → List JSStr → Int → DispatchResult
  | _, [], running =>
    ⟨[], running, if cfg.dryRun then [DispatchEvent.shutdownCall] else []⟩
  | env, itemId :: rest, running =>
    if (cfg.maxParallel : Int) ≤ running then ⟨itemId :: rest, running, []⟩
    else if itemId = [] then ⟨rest, running, []⟩
    else
      attemptOutcome cfg itemId rest (running + 1)
        (processEncodingQueue cfg env.tail rest (running + 1 - 1))
        (env.headD ItemOutcome.detailsFail)

/-- The resync values a run of dispatch attempts can install into the counter. -/
def resyncValues (env : List ItemOutcome) : List Nat :=
  env.filterMap fun o =>
    match o with
    | ItemOutcome.audio _ _ _ (EncodeOutcome.encodeOk (some n)) => some n
    | _ => none

/-- Whether an environment outcome is an audio file whose codec is excluded. -/
def isExcludedAudio (cfg : DispatchConfig) : ItemOutcome → Bool
  | ItemOutcome.audio c _ _ _ => cfg.excludedCodecs.contains (jsToLower c)
  | _ => false

/-- Queue/counter state owned by the `SocketClient`. -/
structure DispatchState where
  queue : List JSStr
  running : Int
deriving DecidableEq

/-- The backfill loop `for (let i = this.runningEncodings; i < MAX_PARALLEL; i++)
void this.processEncodingQueue();`, sequentialised: each call consumes its own
environment list. -/
def iterateDispatch (cfg : DispatchConfig) :
    List (List ItemOutcome) → Nat → DispatchState → DispatchState
  | _, 0, s => s
  | envs, k + 1, s =>
    let r := processEncodingQueue cfg (envs.headD []) s.queue s.running
    iterateDispatch cfg envs.tail k ⟨r.queue, r.running⟩

/-- The `task_finished` case of `SocketClient.handleSocketIoEvent`: when the
action field is a string containing `"encode"`, decrement `runningEncodings`
unconditionally, decide whether a deferred metadata embed is scheduled
(returned Boolean), and backfill dispatch up to the concurrency limit. -/
def handleTaskFinished (cfg : DispatchConfig) (envs : List (List ItemOutcome))
    (action : Option JSStr) (libraryItemId : Option JSStr) (s : DispatchState) :
    DispatchState × Bool :=
  match action with
  | none => (s, false)
  | some a =>
    if jsIncludes a (jsOf "encode") then
      (iterateDispatch cfg envs ((cfg.maxParallel - (s.running - 1)).toNat)
        ⟨s.queue, s.running - 1⟩,
       cfg.embedMetadata && decide (libraryItemId.getD [] ≠ []))
    else (s, false)

/-! ## Shutdown (`SocketClient.shutdown` and `main`) -/

/-- The connection as `shutdown` observes it: absent (`null`), in the `OPEN`
ready state, or non-null in any other ready state. -/
inductive WsConn where
  | null
  | openConn
  | otherConn
deriving DecidableEq

/-- Observable effects of a shutdown: whether a reconnect timer is still
pending afterwards, which frames/close calls were issued, and whether (and
after how many milliseconds) a `process.exit` is performed — `none` means the
process keeps running. -/
structure ShutdownObs where
  reconnectPending : Bool
  sentNamespaceDisconnect : Bool
  closedGracefully : Bool
  terminated : Bool
  exitDelayMs : Option Nat
deriving DecidableEq

/-- `SocketClient.shutdown`: cancel any pending reconnect timer; if the socket
is open, send the namespace-disconnect frame and close it, else terminate a
non-null socket; finally `process.exit(0)` immediately iff the queue is
empty. -/
def shutdown (ws : WsConn) (_reconnectPending : Bool) (queue : List JSStr) :
    ShutdownObs :=
  { reconnectPending := false
    sentNamespaceDisconnect := ws = WsConn.openConn
    closedGracefully := ws = WsConn.openConn
    terminated := ws ≠ WsConn.null ∧ ws ≠ WsConn.openConn
    exitDelayMs := if queue.length = 0 then some 0 else none }

/-- The SIGINT/SIGTERM handler installed by `main`: call `shutdown()` and then
unconditionally schedule `process.exit(0)` 1000 ms later (reached only when
`shutdown` itself did not already exit). -/
def handleTerminationSignal (ws : WsConn) (reconnectPending : Bool)
    (queue : List JSStr) : ShutdownObs :=
  match shutdown ws reconnectPending queue with
  | obs =>
    match obs.exitDelayMs with
    | some d => { obs with exitDelayMs := some d }
    | none => { obs with exitDelayMs := some 1000 }

/-! ## Lemmas about the dispatch queue -/

lemma mem_resyncValues_cons {n : Nat} (o : ItemOutcome) {env : List ItemOutcome}
    (hn : n ∈ resyncValues env) : n ∈ resyncValues (o :: env) := by
  unfold resyncValues at hn ⊢
  rw [List.filterMap_cons]
  split
  · exact hn
  · exact List.mem_cons_of_mem _ hn

lemma self_mem_resyncValues (c : JSStr) (br ch : Int) (n : Nat)
    (env : List ItemOutcome) :
    n ∈ resyncValues
      (ItemOutcome.audio c br ch (EncodeOutcome.encodeOk (some n)) :: env) := by
  unfold resyncValues
  rw [List.filterMap_cons]
  simp

lemma resyncValues_nil : resyncValues [] = [] := rfl

lemma iterateDispatch_empty_queue (cfg : DispatchConfig) :
    ∀ (n : Nat) (envs : List (List ItemOutcome)) (r : Int),
      iterateDispatch cfg envs n ⟨[], r⟩ = ⟨[], r⟩ := by
  intro n
  induction n with
  | zero => intro envs r; rfl
  | succ k ih =>
    intro envs r
    simp only [iterateDispatch, processEncodingQueue]
    exact ih _ _

/-! ## Claim theorems for the dispatch queue -/

/-- C4 counterexample.  With limit K = 1, a single dispatch attempt that
successfully starts an encode performs the best-effort resync
`this.runningEncodings = await this.apiClient.getTasks()`, overwriting the
counter with the server-reported task count; if the server reports 2 tasks,
`runningCount` becomes 2 > K with no completion signal having arrived. -/
theorem c4_counterexample :
    (processEncodingQueue
        ⟨1, [], [(jsOf "0|0|0|0|0", ⟨jsOf "opus", jsOf "64000", jsOf "2"⟩)], false, false⟩
        [ItemOutcome.audio (jsOf "mp3") 128000 2 (EncodeOutcome.encodeOk (some 2))]
        [jsOf "a"] 0).running = 2 ∧ (1 : Int) < 2 :=
  ⟨by decide, by decide⟩

/-- C4 (amended).  Starting from `runningCount ≤ K`, dispatch attempts with no
completion signal never push `runningCount` above K *provided every successful
post-encode resync reports a count ≤ K* (in particular when every attempt ends
in a skip or failure, or every resync fails); the resync can otherwise raise
the counter beyond K, since it overwrites it with the server-reported task
count.  An attempt that finds `runningCount ≥ K` (with a non-empty queue), or
an empty queue, leaves the queue and the counter unchanged. -/
theorem c4_bounded_by_limit :
    (∀ (cfg : DispatchConfig) (env : List ItemOutcome) (q : List JSStr) (r : Int),
      (∀ n ∈ resyncValues env, (n : Int) ≤ (cfg.maxParallel : Int)) →
      r ≤ (cfg.maxParallel : Int) →
      (processEncodingQueue cfg env q r).running ≤ (cfg.maxParallel : Int))
    ∧ (∀ (cfg : DispatchConfig) (env : List ItemOutcome) (q : List JSStr) (r : Int),
      (cfg.maxParallel : Int) ≤ r →
      (processEncodingQueue cfg env q r).queue = q ∧
      (processEncodingQueue cfg env q r).running = r) := by
  constructor
  · intro cfg env q
    induction q generalizing env with
    | nil =>
      intro r _ hr
      simpa [processEncodingQueue] using hr
    | cons it rest ih =>
      intro r hres hr
      simp only [processEncodingQueue]
      by_cases hguard : (cfg.maxParallel : Int) ≤ r
      · rw [if_pos hguard]; simpa using hr
      · rw [if_neg hguard]
        by_cases hit : it = []
        · rw [if_pos hit]; simpa using hr
        · rw [if_neg hit]
          cases env with
          | nil =>
            simp only [List.headD_nil, List.tail_nil, attemptOutcome]
            exact ih [] _ (by simp [resyncValues_nil]) (by omega)
          | cons o env' =>
            simp only [List.headD_cons, List.tail_cons]
            have hres' : ∀ n ∈ resyncValues env', (n : Int) ≤ (cfg.maxParallel : Int) :=
              fun n hn => hres n (mem_resyncValues_cons o hn)
            cases o with
            | detailsFail =>
              simp only [attemptOutcome]
              exact ih env' _ hres' (by omega)
            | noAudioFiles =>
              simp only [attemptOutcome]
              exact ih env' _ hres' (by omega)
            | audio c br ch enc =>
              simp only [attemptOutcome, attemptAudio]
              by_cases hexc : cfg.excludedCodecs.contains (jsToLower c)
              · rw [if_pos hexc]; exact ih env' _ hres' (by omega)
              · rw [if_neg hexc]
                cases findConversion cfg.matrix c br ch with
                | none =>
                  simp only [afterLookup, withEvents]
                  exact ih env' _ hres' (by omega)
                | some p =>
                  simp only [afterLookup, withEvents]
                  cases enc with
                  | encodeFail =>
                    simp only [afterEncode]
                    exact ih env' _ hres' (by omega)
                  | encodeOk o2 =>
                    cases o2 with
                    | none =>
                      simp only [afterEncode]
                      show r + 1 ≤ (cfg.maxParallel : Int)
                      omega
                    | some n =>
                      simp only [afterEncode]
                      show (n : Int) ≤ (cfg.maxParallel : Int)
                      exact hres n (self_mem_resyncValues c br ch n env')
  · intro cfg env q r h
    cases q with
    | nil => exact ⟨rfl, rfl⟩
    | cons it rest =>
      simp only [processEncodingQueue]
      rw [if_pos h]
      exact ⟨rfl, rfl⟩

/-- Witness for C4 (amended): a resync reporting 1 ≤ K keeps the bound, and an
attempt at `runningCount = 5 ≥ K = 1` is a no-op on queue and counter. -/
theorem c4_witness :
    (processEncodingQueue
        ⟨1, [], [(jsOf "0|0|0|0|0", ⟨jsOf "opus", jsOf "64000", jsOf "2"⟩)], false, false⟩
        [ItemOutcome.audio (jsOf "mp3") 128000 2 (EncodeOutcome.encodeOk (some 1))]
        [jsOf "a"] 0).running ≤ ((1 : Nat) : Int) ∧
    (processEncodingQueue ⟨1, [], [], false, false⟩ [] [jsOf "a"] 5).queue = [jsOf "a"] ∧
    (processEncodingQueue ⟨1, [], [], false, false⟩ [] [jsOf "a"] 5).running = 5 :=
  ⟨c4_bounded_by_limit.1 _ _ _ 0 (by decide) (by decide),
   (c4_bounded_by_limit.2 ⟨1, [], [], false, false⟩ [] [jsOf "a"] 5 (by decide)).1,
   (c4_bounded_by_limit.2 ⟨1, [], [], false, false⟩ [] [jsOf "a"] 5 (by decide)).2⟩

/-- C5 counterexample.  `task_finished` with action `"encode_m4b"` decrements
`runningEncodings` unconditionally: from the reachable state
`runningCount = 0` (e.g. an encode finishing that this process did not start,
or after a resync) the handler drives the counter to −1 < 0, so
`runningCount ≥ 0` is not an invariant. -/
theorem c5_counterexample :
    (handleTaskFinished ⟨1, [], [], false, false⟩ [] (some (jsOf "encode_m4b")) none
        ⟨[], 0⟩).1.running = -1 ∧ (-1 : Int) < 0 :=
  ⟨by decide, by decide⟩

/-- C5 (amended).  Handling `task_finished` whose action contains `"encode"`
decrements `runningCount` by exactly one, unconditionally — even from 0,
yielding −1 — so `runningCount ≥ 0` is not preserved; with an empty queue the
handler performs only this decrement, and an event whose action lacks
`"encode"` (or is not a string) leaves the state unchanged. -/
theorem c5_decrement_unconditional :
    (∀ (cfg : DispatchConfig) (envs : List (List ItemOutcome)) (a : JSStr)
        (lid : Option JSStr) (s : DispatchState),
      jsIncludes a (jsOf "encode") = true → s.queue = [] →
      (handleTaskFinished cfg envs (some a) lid s).1 = ⟨[], s.running - 1⟩)
    ∧ (∀ (cfg : DispatchConfig) (envs : List (List ItemOutcome)) (a : JSStr)
        (lid : Option JSStr) (s : DispatchState),
      jsIncludes a (jsOf "encode") = false →
      handleTaskFinished cfg envs (some a) lid s = (s, false))
    ∧ (∀ (cfg : DispatchConfig) (envs : List (List ItemOutcome))
        (lid : Option JSStr) (s : DispatchState),
      handleTaskFinished cfg envs none lid s = (s, false)) := by
  refine ⟨?_, ?_, ?_⟩
  · intro cfg envs a lid s ha hq
    obtain ⟨q, r⟩ := s
    simp only at hq
    subst hq
    simp only [handleTaskFinished]
    rw [if_pos ha]
    exact iterateDispatch_empty_queue cfg _ envs _
  · intro cfg envs a lid s ha
    simp only [handleTaskFinished]
    rw [if_neg (by simp [ha])]
  · intro cfg envs lid s
    rfl

/-- Witness for C5 (amended): the decrement from 5 to 4, and inertness of a
non-encode action. -/
theorem c5_witness :
    (handleTaskFinished ⟨2, [], [], false, false⟩ [] (some (jsOf "encode_m4b")) none
        ⟨[], 5⟩).1 = ⟨[], 4⟩ ∧
    handleTaskFinished ⟨2, [], [], false, false⟩ [] (some (jsOf "embed")) none
        ⟨[jsOf "a"], 1⟩ = (⟨[jsOf "a"], 1⟩, false) :=
  ⟨(c5_decrement_unconditional.1 ⟨2, [], [], false, false⟩ [] (jsOf "encode_m4b")
      none ⟨[], 5⟩ (by decide) rfl).trans (by decide),
   c5_decrement_unconditional.2.1 ⟨2, [], [], false, false⟩ [] (jsOf "embed")
      none ⟨[jsOf "a"], 1⟩ (by decide)⟩

/-- C7.  A queue whose entries are all excluded by codec drains completely in
one chain of dispatch attempts, with no completion signal: every entry is
popped and skipped (decrement then recursive retry, leaving the counter at its
starting value), and neither the rule engine nor the encoding capability is
ever invoked — the exclusion check precedes the `findConversion` call. -/
theorem c7_excluded_drain :
    ∀ (cfg : DispatchConfig) (env : List ItemOutcome) (q : List JSStr) (r : Int),
      r < (cfg.maxParallel : Int) →
      (∀ it ∈ q, it ≠ ([] : JSStr)) →
      (∀ i, i < q.length →
        isExcludedAudio cfg (env.getD i ItemOutcome.detailsFail) = true) →
      (processEncodingQueue cfg env q r).queue = [] ∧
      (processEncodingQueue cfg env q r).running = r ∧
      ∀ e ∈ (processEncodingQueue cfg env q r).events, e = DispatchEvent.shutdownCall := by
  intro cfg env q
  induction q generalizing env with
  | nil =>
    intro r _ _ _
    refine ⟨rfl, rfl, ?_⟩
    intro e he
    simp only [processEncodingQueue] at he
    split at he
    · simpa using he
    · simp at he
  | cons it rest ih =>
    intro r hr hitems hexc
    have hit : it ≠ [] := hitems it (List.mem_cons_self _ _)
    cases env with
    | nil =>
      have h0 := hexc 0 (by simp)
      rw [List.getD_nil] at h0
      exact absurd h0 (by simp [isExcludedAudio])
    | cons o env' =>
      have h0 := hexc 0 (by simp)
      rw [List.getD_cons_zero] at h0
      cases o with
      | detailsFail => exact absurd h0 (by simp [isExcludedAudio])
      | noAudioFiles => exact absurd h0 (by simp [isExcludedAudio])
      | audio c br ch enc =>
        have hexcl : cfg.excludedCodecs.contains (jsToLower c) = true := by
          simpa [isExcludedAudio] using h0
        simp only [processEncodingQueue, List.headD_cons, List.tail_cons]
        rw [if_neg (not_le.mpr hr), if_neg hit]
        simp only [attemptOutcome, attemptAudio]
        rw [if_pos hexcl]
        have ihres := ih env' (r + 1 - 1) (by omega)
          (fun x hx => hitems x (List.mem_cons_of_mem _ hx))
          (fun i hi => by
            have := hexc (i + 1) (by simpa using Nat.succ_lt_succ hi)
            rwa [List.getD_cons_succ] at this)
        exact ⟨ihres.1, ihres.2.1.trans (by omega), ihres.2.2⟩

/-- Witness for C7: two nonempty entries with `opus` audio outcomes, excluded
set `{opus}`, drain fully at `runningCount = 0` with no rule-engine or encode
events. -/
theorem c7_witness :
    (processEncodingQueue ⟨1, [jsOf "opus"], [], false, false⟩
        [ItemOutcome.audio (jsOf "opus") 64000 2 EncodeOutcome.encodeFail,
         ItemOutcome.audio (jsOf "OPUS") 128000 1 EncodeOutcome.encodeFail]
        [jsOf "a", jsOf "b"] 0).queue = [] ∧
    (processEncodingQueue ⟨1, [jsOf "opus"], [], false, false⟩
        [ItemOutcome.audio (jsOf "opus") 64000 2 EncodeOutcome.encodeFail,
         ItemOutcome.audio (jsOf "OPUS") 128000 1 EncodeOutcome.encodeFail]
        [jsOf "a", jsOf "b"] 0).running = 0 ∧
    ∀ e ∈ (processEncodingQueue ⟨1, [jsOf "opus"], [], false, false⟩
        [ItemOutcome.audio (jsOf "opus") 64000 2 EncodeOutcome.encodeFail,
         ItemOutcome.audio (jsOf "OPUS") 128000 1 EncodeOutcome.encodeFail]
        [jsOf "a", jsOf "b"] 0).events, e = DispatchEvent.shutdownCall :=
  c7_excluded_drain ⟨1, [jsOf "opus"], [], false, false⟩
    [ItemOutcome.audio (jsOf "opus") 64000 2 EncodeOutcome.encodeFail,
     ItemOutcome.audio (jsOf "OPUS") 128000 1 EncodeOutcome.encodeFail]
    [jsOf "a", jsOf "b"] 0 (by decide) (by decide)
    (by intro i hi; simp only [List.length_cons, List.length_nil] at hi;
        interval_cases i <;> decide)

lemma processEncodingQueue_queue_suffix (cfg : DispatchConfig) :
    ∀ (env : List ItemOutcome) (q : List JSStr) (r : Int),
      (processEncodingQueue cfg env q r).queue <:+ q := by
  intro env q
  induction q generalizing env with
  | nil => intro r; exact List.suffix_refl _
  | cons it rest ih =>
    intro r
    simp only [processEncodingQueue]
    by_cases hg : (cfg.maxParallel : Int) ≤ r
    · rw [if_pos hg]
    · rw [if_neg hg]
      by_cases hit : it = []
      · rw [if_pos hit]; exact List.suffix_cons it rest
      · rw [if_neg hit]
        cases env with
        | nil =>
          simp only [List.headD_nil, List.tail_nil, attemptOutcome]
          exact (ih [] _).trans (List.suffix_cons _ _)
        | cons o env' =>
          simp only [List.headD_cons, List.tail_cons]
          cases o with
          | detailsFail =>
            simp only [attemptOutcome]
            exact (ih env' _).trans (List.suffix_cons _ _)
          | noAudioFiles =>
            simp only [attemptOutcome]
            exact (ih env' _).trans (List.suffix_cons _ _)
          | audio c br ch enc =>
            simp only [attemptOutcome, attemptAudio]
            by_cases hexc : cfg.excludedCodecs.contains (jsToLower c)
            · rw [if_pos hexc]; exact (ih env' _).trans (List.suffix_cons _ _)
            · rw [if_neg hexc]
              cases findConversion cfg.matrix c br ch with
              | none =>
                simp only [afterLookup, withEvents]
                exact (ih env' _).trans (List.suffix_cons _ _)
              | some p =>
                simp only [afterLookup, withEvents]
                cases enc with
                | encodeFail =>
                  simp only [afterEncode]
                  exact (ih env' _).trans (List.suffix_cons _ _)
                | encodeOk o2 =>
                  cases o2 with
                  | none => exact List.suffix_cons _ _
                  | some n => exact List.suffix_cons _ _

/-- C8.  When a control-plane call of a dispatch attempt fails —
`getItemDetails` throwing, or `startM4bEncoding` throwing after a rule matched
— the attempt is exactly a skip: the popped entry is gone, the counter is back
at its pre-attempt value (incremented then decremented exactly once), and the
chain continues with the next entry; the queue of any attempt chain is a
suffix of the original queue, so a popped entry is never re-enqueued; and a
failure of the post-success resync alone ends the attempt with the queue
advanced and the counter kept at its incremented value, with no extra
decrement. -/
theorem c8_failure_paths :
    (∀ (cfg : DispatchConfig) (env' : List ItemOutcome) (q : List JSStr) (r : Int)
        (it : JSStr), r < (cfg.maxParallel : Int) → it ≠ [] →
      processEncodingQueue cfg (ItemOutcome.detailsFail :: env') (it :: q) r
        = processEncodingQueue cfg env' q r)
    ∧ (∀ (cfg : DispatchConfig) (env' : List ItemOutcome) (q : List JSStr) (r : Int)
        (it c : JSStr) (br ch : Int), r < (cfg.maxParallel : Int) → it ≠ [] →
      cfg.excludedCodecs.contains (jsToLower c) = false →
      (∃ p, findConversion cfg.matrix c br ch = some p) →
      processEncodingQueue cfg
          (ItemOutcome.audio c br ch EncodeOutcome.encodeFail :: env') (it :: q) r
        = withEvents [DispatchEvent.ruleLookup it, DispatchEvent.encodeRequest it]
            (processEncodingQueue cfg env' q r))
    ∧ (∀ (cfg : DispatchConfig) (env' : List ItemOutcome) (q : List JSStr) (r : Int)
        (it c : JSStr) (br ch : Int), r < (cfg.maxParallel : Int) → it ≠ [] →
      cfg.excludedCodecs.contains (jsToLower c) = false →
      (∃ p, findConversion cfg.matrix c br ch = some p) →
      processEncodingQueue cfg
          (ItemOutcome.audio c br ch (EncodeOutcome.encodeOk none) :: env') (it :: q) r
        = ⟨q, r + 1,
            [DispatchEvent.ruleLookup it, DispatchEvent.encodeRequest it]⟩)
    ∧ (∀ (cfg : DispatchConfig) (env : List ItemOutcome) (q : List JSStr) (r : Int),
      (processEncodingQueue cfg env q r).queue <:+ q) := by
  refine ⟨?_, ?_, ?_, processEncodingQueue_queue_suffix⟩
  · intro cfg env' q r it hr hit
    simp only [processEncodingQueue, List.headD_cons, List.tail_cons]
    rw [if_neg (not_le.mpr hr), if_neg hit]
    simp only [attemptOutcome, Int.add_sub_cancel]
  · intro cfg env' q r it c br ch hr hit hexc ⟨p, hp⟩
    simp only [processEncodingQueue, List.headD_cons, List.tail_cons]
    rw [if_neg (not_le.mpr hr), if_neg hit]
    simp only [attemptOutcome, attemptAudio]
    rw [if_neg (by rw [hexc]; decide), hp]
    simp only [afterLookup, afterEncode, Int.add_sub_cancel]
  · intro cfg env' q r it c br ch hr hit hexc ⟨p, hp⟩
    simp only [processEncodingQueue, List.headD_cons, List.tail_cons]
    rw [if_neg (not_le.mpr hr), if_neg hit]
    simp only [attemptOutcome, attemptAudio]
    rw [if_neg (by rw [hexc]; decide), hp]
    simp only [afterLookup, afterEncode, withEvents, List.append_nil]

/-- Witness for C8: a failing `getItemDetails`, a failing encode request, and
a swallowed resync failure, each at concrete inputs. -/
theorem c8_witness :
    processEncodingQueue ⟨2, [], [], false, false⟩ [ItemOutcome.detailsFail]
        [jsOf "a"] 0
      = processEncodingQueue ⟨2, [], [], false, false⟩ [] [] 0 ∧
    processEncodingQueue
        ⟨2, [], [(jsOf "0|0|0|0|0", ⟨jsOf "opus", jsOf "64000", jsOf "2"⟩)], false, false⟩
        [ItemOutcome.audio (jsOf "mp3") 128000 2 EncodeOutcome.encodeFail]
        [jsOf "a"] 0
      = withEvents [DispatchEvent.ruleLookup (jsOf "a"),
          DispatchEvent.encodeRequest (jsOf "a")]
          (processEncodingQueue
            ⟨2, [], [(jsOf "0|0|0|0|0", ⟨jsOf "opus", jsOf "64000", jsOf "2"⟩)], false, false⟩
            [] [] 0) ∧
    processEncodingQueue
        ⟨2, [], [(jsOf "0|0|0|0|0", ⟨jsOf "opus", jsOf "64000", jsOf "2"⟩)], false, false⟩
        [ItemOutcome.audio (jsOf "mp3") 128000 2 (EncodeOutcome.encodeOk none)]
        [jsOf "a"] 0
      = ⟨[], 1, [DispatchEvent.ruleLookup (jsOf "a"),
          DispatchEvent.encodeRequest (jsOf "a")]⟩ ∧
    (processEncodingQueue ⟨2, [], [], false, false⟩ [] [jsOf "a", jsOf "b"] 0).queue
      <:+ [jsOf "a", jsOf "b"] :=
  ⟨c8_failure_paths.1 ⟨2, [], [], false, false⟩ [] [] 0 (jsOf "a")
      (by decide) (by decide),
   c8_failure_paths.2.1 _ [] [] 0 (jsOf "a") (jsOf "mp3") 128000 2
      (by decide) (by decide) (by decide)
      ⟨⟨jsOf "opus", jsOf "64000", jsOf "2"⟩, by decide⟩,
   c8_failure_paths.2.2.1 _ [] [] 0 (jsOf "a") (jsOf "mp3") 128000 2
      (by decide) (by decide) (by decide)
      ⟨⟨jsOf "opus", jsOf "64000", jsOf "2"⟩, by decide⟩,
   c8_failure_paths.2.2.2 ⟨2, [], [], false, false⟩ [] [jsOf "a", jsOf "b"] 0⟩

/-- C9 counterexample.  On SIGINT/SIGTERM with a non-empty queue,
`SocketClient.shutdown` itself does not exit, but the signal handler in `main`
has already scheduled an unconditional `process.exit(0)` 1000 ms later — so
the process does *not* keep running for already-scheduled dispatch attempts
(whose settle delay defaults to 15000 ms). -/
theorem c9_counterexample :
    (handleTerminationSignal WsConn.openConn false [jsOf "a"]).exitDelayMs = some 1000 ∧
    (handleTerminationSignal WsConn.openConn false [jsOf "a"]).exitDelayMs ≠ none ∧
    ([jsOf "a"] : List JSStr) ≠ [] :=
  ⟨by decide, by decide, by decide⟩

/-- C9 (amended).  `shutdown` cancels any pending reconnect timer, sends the
namespace-disconnect frame and closes the connection iff it is open (and
forcibly terminates a non-null, non-open connection), and exits immediately if
and only if the dispatch queue is empty; but when shutdown is triggered by a
termination signal, a non-empty queue only defers the exit — the handler
unconditionally exits about 1000 ms later. -/
theorem c9_shutdown_exit_iff :
    ∀ (ws : WsConn) (rp : Bool) (queue : List JSStr),
      (shutdown ws rp queue).reconnectPending = false ∧
      (shutdown ws rp queue).sentNamespaceDisconnect = decide (ws = WsConn.openConn) ∧
      (shutdown ws rp queue).closedGracefully = decide (ws = WsConn.openConn) ∧
      (shutdown ws rp queue).terminated
        = (decide (ws ≠ WsConn.null) && decide (ws ≠ WsConn.openConn)) ∧
      (shutdown ws rp queue).exitDelayMs = (if queue = [] then some 0 else none) ∧
      (handleTerminationSignal ws rp queue).exitDelayMs
        = some (if queue = [] then 0 else 1000) := by
  intro ws rp queue
  refine ⟨rfl, rfl, rfl, by cases ws <;> rfl, ?_, ?_⟩
  · simp [shutdown, List.length_eq_zero]
  · by_cases hq : queue = []
    · simp [handleTerminationSignal, shutdown, hq]
    · simp [handleTerminationSignal, shutdown, hq, List.length_eq_zero]

/-- C10.  The dispatch-time exclusion check depends only on the lowercase
forms: the configured raw string is lowercased then split on commas, and an
item is skipped iff the lowercase item codec is a member of the elementwise
lowercased configured list; changing the letter case of the item codec or of
the configured string never changes the decision. -/
theorem c10_case_insensitive_exclusion :
    (∀ raw codec : JSStr,
      dispatchSkips raw codec
        = ((jsSplitOn ',' raw).map jsToLower).contains (jsToLower codec))
    ∧ (∀ raw₁ raw₂ c₁ c₂ : JSStr, jsToLower raw₁ = jsToLower raw₂ →
        jsToLower c₁ = jsToLower c₂ →
        dispatchSkips raw₁ c₁ = dispatchSkips raw₂ c₂) := by
  constructor
  · intro raw codec
    unfold dispatchSkips EXCLUDED_CODECS
    rw [jsSplitOn_comma_toLower]
  · intro raw₁ raw₂ c₁ c₂ h₁ h₂
    unfold dispatchSkips EXCLUDED_CODECS
    rw [h₁, h₂]

/-- Witness for C10: case variations of both the configured list and the item
codec leave the skip decision unchanged (and positive). -/
theorem c10_witness :
    dispatchSkips (jsOf "OPUS,aac") (jsOf "Opus")
      = dispatchSkips (jsOf "opus,AAC") (jsOf "oPUS") ∧
    dispatchSkips (jsOf "OPUS,aac") (jsOf "Opus") = true :=
  ⟨c10_case_insensitive_exclusion.2 (jsOf "OPUS,aac") (jsOf "opus,AAC")
      (jsOf "Opus") (jsOf "oPUS") (by decide) (by decide),
   by decide⟩

end AbsAutoconverter
